import Mathlib

/-!
# Verification of the release-controller verification orchestration engine

A shallow embedding, in Lean 4, of the per-tag verification orchestration
core of the release-controller: the backoff calculator, the status codec
wiring, the upgrade-source resolver, the single-attempt (gating)
orchestrator, the two multi-attempt test orchestrators, and the
completeness evaluator, together with theorems settling the specification
claims about them.

Conventions used throughout:

* Go `time.Duration` and `metav1.Time` are embedded as `Int` (nanoseconds);
  a nil `*metav1.Time` is `Option Int`.
* Go `int` is embedded as `Int` (counters that provably stay non-negative
  are sometimes embedded as `Nat`, noted at the definition).
* Go maps are embedded as association lists with Go read semantics
  (`lookupA`); writing is `upsertA`.  A nil map and an empty map behave
  identically for reads, so the two are collapsed.
* Job states and retry strategies are Go `string` values and are embedded
  as `String`, compared against the same constants the source compares
  against ("Succeeded", "Failed", "Pending", "FirstSuccess", ...).
* The job facade (`ensureProwJobForReleaseTag` / `...ForAdditionalTest`
  followed by `prowJobVerificationStatus`) is an opaque parameter
  `facade : String → VerificationStatus` mapping the derived job name to
  the status read back; within one reconcile it is a fixed function
  (idempotent ensure over an unchanging informer cache).  Runs in which
  the facade errors abort the reconcile before anything is persisted and
  are therefore not modelled.
-/

namespace RC

/-- Go read of an association-list map: `m[k]` as `Option`. -/
def lookupA {α : Type} (m : List (String × α)) (k : String) : Option α :=
  match m with
  | [] => none
  | (k2, v) :: rest => if k2 = k then some v else lookupA rest k

/-- Go write `m[k] = v` on an association-list map. -/
def upsertA {α : Type} (m : List (String × α)) (k : String) (v : α) :
    List (String × α) :=
  match m with
  | [] => [(k, v)]
  | (k2, v2) :: rest =>
      if k2 = k then (k, v) :: rest else (k2, v2) :: upsertA rest k v

theorem lookupA_upsertA_self {α : Type} (m : List (String × α)) (k : String) (v : α) :
    lookupA (upsertA m k v) k = some v := by
  induction m with
  | nil => simp [lookupA, upsertA]
  | cons p rest ih =>
      obtain ⟨k2, v2⟩ := p
      by_cases h : k2 = k <;> simp [lookupA, upsertA, h, ih]

theorem lookupA_upsertA_ne {α : Type} (m : List (String × α)) (k k2 : String)
    (v : α) (h : k ≠ k2) : lookupA (upsertA m k v) k2 = lookupA m k2 := by
  induction m with
  | nil => simp [lookupA, upsertA, h]
  | cons p rest ih =>
      obtain ⟨k3, v3⟩ := p
      by_cases h3 : k3 = k
      · subst h3
        simp [lookupA, upsertA, h]
      · simp only [upsertA, if_neg h3, lookupA]
        by_cases h4 : k3 = k2 <;> simp [h4, ih]

/-! ## Job states and status records

Source: `cmd/release-controller/http_candidate.go` (type declarations and
the `releaseVerificationState*` constants).  `VerificationStatus` embeds
`VerifyJobStatus` (`state`, `url`) and adds `retries` and
`transitionTime`. -/

/-- Go `releaseVerificationStateSucceeded` -/
def stateSucceeded : String := "Succeeded"

/-- Go `releaseVerificationStateFailed` -/
def stateFailed : String := "Failed"

/-- Go `releaseVerificationStatePending` -/
def statePending : String := "Pending"

/-- Go `VerificationStatus` (the multi-attempt orchestrators and the gating
orchestrator both read and write this shape). -/
structure VerificationStatus where
  state : String
  url : String := ""
  retries : Int := 0
  transitionTime : Option Int := none
deriving DecidableEq, Repr

/-! ## Backoff calculator

Source: `cmd/release-controller/http_candidate.go`, `calculateBackoff`.
The function builds a `k8s.io/apimachinery/pkg/util/wait.Backoff` with
`Duration = 1min`, `Factor = 2`, `Jitter = 0`, `Steps = retryCount`,
`Cap = 15min`, drives it with `for backoff.Steps > 0 { backoff.Step() }`
and then reads `backoff.Duration` (the value left AFTER the last step, not
the value returned by a step).  `wait.Backoff.Step` with `Steps ≥ 1`
decrements `Steps`, multiplies `Duration` by the factor and, if the new
duration exceeds `Cap`, sets `Duration = Cap` and `Steps = 0`.  The
float64 multiplication in the library is exact at these magnitudes
(≤ 16 minutes in nanoseconds < 2^53), so it is embedded as integer
doubling. -/

/-- One minute in nanoseconds (`time.Minute * 1`). -/
def oneMinute : Int := 60 * 1000000000

/-- Fifteen minutes in nanoseconds (`Cap: time.Minute * 15`). -/
def backoffCap : Int := 15 * oneMinute

/-- The `for backoff.Steps > 0 { backoff.Step() }` loop: `s` remaining
steps, `d` the current `backoff.Duration`; returns the final
`backoff.Duration`. -/
def backoffLoop : Nat → Int → Int
  | 0, d => d
  | s + 1, d =>
      let d2 := d * 2
      if backoffCap < d2 then backoffCap else backoffLoop s d2

/-- Go `calculateBackoff(retryCount, initialTime, currentTime)`.  `none` for
`initialTime` is the nil `*metav1.Time`. -/
def calculateBackoff (retryCount : Int) (initialTime : Option Int)
    (currentTime : Int) : Int :=
  if retryCount < 1 then 0
  else
    let nominal := backoffLoop retryCount.toNat oneMinute
    let withSkew :=
      match initialTime with
      | some t0 => nominal + (t0 - currentTime)
      | none => nominal
    if withSkew < 0 then 0 else withSkew

theorem backoffLoop_closed_form (s : Nat) (d : Int) (hd : 0 < d)
    (hcap : d ≤ backoffCap) : backoffLoop s d = min backoffCap (d * 2 ^ s) := by
  induction s generalizing d with
  | zero => simpa [backoffLoop] using (min_eq_right hcap).symm
  | succ s ih =>
      simp only [backoffLoop]
      by_cases h : backoffCap < d * 2
      · have h2s : (1 : Int) ≤ 2 ^ s := one_le_pow₀ (by norm_num)
        have : backoffCap ≤ d * 2 ^ (s + 1) := by
          have hd2 : d * 2 ≤ d * 2 ^ (s + 1) := by
            have : (2 : Int) ≤ 2 ^ (s + 1) := by
              calc (2 : Int) = 2 * 1 := by ring
              _ ≤ 2 * 2 ^ s := by nlinarith
              _ = 2 ^ (s + 1) := by ring
            nlinarith
          linarith
        simp [h, (min_eq_left this)]
      · push_neg at h
        have hd2 : 0 < d * 2 := by linarith
        rw [if_neg (by push_neg; exact h)]
        rw [ih (d * 2) hd2 h]
        congr 1
        ring

/-- Claim C1 (corrected).  The claim states `backoff(1, t, t) = 1 min` and
`backoff(n, t, t) = min(15 min, 2^(n-1) min)`; the code reads
`backoff.Duration` after the stepping loop, i.e. after `n` doublings, so
`backoff(1, t, t)` is in fact 2 minutes, not 1. -/
theorem C1_counterexample :
    calculateBackoff 1 (some 0) 0 = 2 * oneMinute ∧
    calculateBackoff 1 (some 0) 0 ≠ oneMinute := by
  constructor <;> decide

/-- Claim C1 (amended): `calculateBackoff(n, t, t)` returns 0 for `n < 1`
and `min(15 min, 2^n min)` for `n ≥ 1` (so 2 minutes for `n = 1`). -/
theorem C1_theorem (n t : Int) :
    (n < 1 → calculateBackoff n (some t) t = 0) ∧
    (1 ≤ n → calculateBackoff n (some t) t
        = min backoffCap (oneMinute * 2 ^ n.toNat)) := by
  constructor
  · intro h
    simp [calculateBackoff, h]
  · intro h
    have hn : ¬ n < 1 := by linarith
    have hl := backoffLoop_closed_form n.toNat oneMinute
      (by norm_num [oneMinute]) (by norm_num [oneMinute, backoffCap])
    have hpos : 0 < min backoffCap (oneMinute * 2 ^ n.toNat) := by
      apply lt_min
      · norm_num [backoffCap, oneMinute]
      · have : (0 : Int) < 2 ^ n.toNat := pow_pos (by norm_num) _
        have : (0 : Int) < oneMinute := by norm_num [oneMinute]
        positivity
    simp only [calculateBackoff, if_neg hn, hl, sub_self, add_zero]
    rw [if_neg (by linarith)]

/-- Witness for C1 at `n = 4`, exercising the 15-minute cap. -/
theorem C1_witness :
    calculateBackoff 4 (some 0) 0
      = min backoffCap (oneMinute * 2 ^ (4 : Int).toNat) :=
  (C1_theorem 4 0).2 (by norm_num)

/-! ## Retry strategies

`RetryStrategy` is a Go string type.  `RetryStrategyFirstSuccess` is
`"FirstSuccess"` (http_candidate.go).  The string values of
`RetryStrategyTillRetryCount` and `RetryStrategyFirstFailure` are declared
in a file that is not part of the sources; only equality against them is
ever used, so any two values distinct from each other and from
`"FirstSuccess"` are faithful.  Modelled from the spec: the spelled-out
strategy names `TillRetryCount` and `FirstFailure`. -/

/-- Go `RetryStrategyFirstSuccess` -/
def strategyFirstSuccess : String := "FirstSuccess"

/-- Go `RetryStrategyTillRetryCount` (value modelled from the spec). -/
def strategyTillRetryCount : String := "TillRetryCount"

/-- Go `RetryStrategyFirstFailure` (value modelled from the spec). -/
def strategyFirstFailure : String := "FirstFailure"

/-! ## Candidate-test slot processing

Source: `ensureCandidateTests` (part_001, lines 483-548).  For each
expanded candidate test the persisted attempt list is scanned to pick the
attempt index `jobNo` and the consecutive-failure count `failed`, the job
for `(slot, jobNo)` is ensured, and its status is written back into the
list. -/

/-- A candidate test as consumed by the processing loop of
`ensureCandidateTests` (part_001 commit): `ReleaseCandidateTest` flattened
to the fields the loop reads. -/
structure ReleaseCandidateTestP where
  maxRetries : Int := 0
  retryStrategy : String := ""
  upgradeTag : String := ""
  upgradeRef : String := ""
deriving DecidableEq, Repr

/-- The attempt scan of `ensureCandidateTests` (the `for _, jobStatus :=
range status` loop): Succeeded increments `jobNo`, resets `failed` and —
under `FirstSuccess` — forces `jobNo = MaxRetries + 1` and stops; Failed
increments both; Pending and unrecognized states stop the scan. -/
def scanCandidate (strategy : String) (maxRetries : Int) :
    List VerificationStatus → Int → Int → Int × Int
  | [], jobNo, failed => (jobNo, failed)
  | s :: rest, jobNo, failed =>
      if s.state = stateSucceeded then
        if strategy = strategyFirstSuccess then (maxRetries + 1, 0)
        else scanCandidate strategy maxRetries rest (jobNo + 1) 0
      else if s.state = stateFailed then
        scanCandidate strategy maxRetries rest (jobNo + 1) (failed + 1)
      else (jobNo, failed)

/-- The status write of `ensureCandidateTests`:
`if len(testStatus[name]) < jobNo { append } else { testStatus[name][jobNo] = status }`.
The in-place assignment panics in Go unless `0 ≤ jobNo < len`; the panic
is embedded as `none`. -/
def recordStatus (l : List VerificationStatus) (jobNo : Int)
    (st : VerificationStatus) : Option (List VerificationStatus) :=
  if (l.length : Int) < jobNo then some (l ++ [st])
  else if 0 ≤ jobNo ∧ jobNo < (l.length : Int) then some (l.set jobNo.toNat st)
  else none

/-- One slot of the `for name, test := range candidateTests` loop of
`ensureCandidateTests`.  Returns the new attempt list, the ensured job
(derived name and attempt index) if the slot was not skipped, and the
backoff delay the slot feeds into the retry-queue accumulator; `none` is
the Go index-out-of-range panic in the status write. -/
def ensureCandidateSlot (facade : String → VerificationStatus) (now : Int)
    (name : String) (test : ReleaseCandidateTestP)
    (prior : List VerificationStatus) :
    Option (List VerificationStatus × Option (String × Int) × Option Int) :=
  let scan := scanCandidate test.retryStrategy test.maxRetries prior 0 0
  let jobNo := scan.1
  let failed := scan.2
  if test.maxRetries < jobNo then some (prior, none, none)
  else
    let jobName := if 0 < jobNo then name ++ "-" ++ toString jobNo else name
    let st := { facade jobName with retries := jobNo }
    match recordStatus prior jobNo st with
    | none => none
    | some l2 =>
        if test.maxRetries ≤ jobNo then some (l2, some (jobName, jobNo), none)
        else if st.state = stateFailed then
          some (l2, some (jobName, jobNo),
                some (calculateBackoff failed st.transitionTime now))
        else some (l2, some (jobName, jobNo), none)

/-- The full per-slot fold of `ensureCandidateTests` over the expanded
test map: threads the status map, the `retryQueueDelay` accumulator and
(as an observer) the list of ensured `(slot, attempt)` pairs.  The map is
written only when the slot reaches the status write, exactly as in the
source. -/
def ensureCandidateTestsProcess (facade : String → VerificationStatus)
    (now : Int) :
    List (String × ReleaseCandidateTestP) →
    List (String × List VerificationStatus) → Int → List (String × Int) →
    Option (List (String × List VerificationStatus) × Int × List (String × Int))
  | [], m, delay, ens => some (m, delay, ens)
  | (name, t) :: rest, m, delay, ens =>
      match ensureCandidateSlot facade now name t ((lookupA m name).getD []) with
      | none => none
      | some (l2, ensured, dly) =>
          let m2 := match ensured with
            | some _ => upsertA m name l2
            | none => m
          let d2 := match dly with
            | some b => if delay = 0 ∨ b < delay then b else delay
            | none => delay
          let ens2 := match ensured with
            | some e => ens ++ [(name, e.2)]
            | none => ens
          ensureCandidateTestsProcess facade now rest m2 d2 ens2

/-! ## The `retryCount`-bounded additional-tests attempt loop

Source: `ensureAdditionalTests` (part_001, lines 101-149): a
`for jobNo := 0; jobNo < testType.Retry.RetryCount;` loop that only
advances `jobNo` on a terminal recorded attempt.  The loop is embedded
with explicit fuel; `none` means the fuel ran out, i.e. the Go loop has
not terminated within that many iterations.  `jobNo` starts at 0 and is
only ever incremented, so it is embedded as `Nat`. -/

/-- The ensure-and-record block at the bottom of the attempt loop:
`jobName := fmt.Sprintf("%s-%d", name, jobNo)`, ensure the job, then
`if len(verifyStatus[name]) <= jobNo { append } else { [jobNo] = status }`. -/
def additionalEnsure (facade : String → VerificationStatus) (name : String)
    (jobNo : Nat) (l : List VerificationStatus) : List VerificationStatus :=
  let st := facade (name ++ "-" ++ toString jobNo)
  if l.length ≤ jobNo then l ++ [st] else l.set jobNo st

/-- One slot's attempt loop from `ensureAdditionalTests` (part_001).
State: remaining fuel, `jobNo`, `skipTest`, the slot's attempt list, and
(as an observer) the attempt indices ensured so far. -/
def additionalLoop (facade : String → VerificationStatus) (strategy : String)
    (retryCount : Int) (name : String) :
    Nat → Nat → Bool → List VerificationStatus → List Nat →
    Option (List VerificationStatus × List Nat)
  | 0, _, _, _, _ => none
  | fuel + 1, jobNo, skipTest, l, acc =>
      if (jobNo : Int) < retryCount then
        if skipTest then some (l, acc)
        else if jobNo < l.length then
          let s := l.getD jobNo { state := "" }
          if s.state = stateSucceeded then
            additionalLoop facade strategy retryCount name fuel (jobNo + 1)
              (if strategy = strategyFirstSuccess then true else skipTest) l acc
          else if s.state = stateFailed then
            additionalLoop facade strategy retryCount name fuel (jobNo + 1)
              (if strategy = strategyFirstFailure then true else skipTest) l acc
          else if s.state = statePending then
            additionalLoop facade strategy retryCount name fuel jobNo skipTest
              (additionalEnsure facade name jobNo l) (acc ++ [jobNo])
          else
            additionalLoop facade strategy retryCount name fuel jobNo true l acc
        else
          additionalLoop facade strategy retryCount name fuel jobNo skipTest
            (additionalEnsure facade name jobNo l) (acc ++ [jobNo])
      else some (l, acc)

/-- Go `ReleaseAdditionalTest` flattened to the fields the orchestrators
read; the `Retry *RetryPolicy` pointer is flattened into `retryStrategy`
and `retryCount` (a nil `Retry` would panic in Go before the loop and is
not modelled). -/
structure ReleaseAdditionalTest where
  disabled : Bool := false
  optional : Bool := false
  upgrade : Bool := false
  prowJobName : Option String := none
  upgradeTag : String := ""
  upgradeRef : String := ""
  retryStrategy : String := ""
  retryCount : Int := 0
deriving DecidableEq, Repr

/-- The `for name, testType := range additionalTests` fold of
`ensureAdditionalTests` (part_001) over the merged test map: each enabled
prow-job slot with a recognized retry strategy runs its attempt loop; the
slot's entry is written only when the loop ensured at least one job
(writes happen only inside the ensure block). -/
def ensureAdditionalTestsLoop (facade : String → VerificationStatus)
    (fuel : Nat) :
    List (String × ReleaseAdditionalTest) →
    List (String × List VerificationStatus) → List (String × Nat) →
    Option (List (String × List VerificationStatus) × List (String × Nat))
  | [], m, ens => some (m, ens)
  | (name, t) :: rest, m, ens =>
      if t.disabled then ensureAdditionalTestsLoop facade fuel rest m ens
      else match t.prowJobName with
        | none => ensureAdditionalTestsLoop facade fuel rest m ens
        | some _ =>
            if t.retryStrategy = strategyTillRetryCount ∨
               t.retryStrategy = strategyFirstSuccess ∨
               t.retryStrategy = strategyFirstFailure then
              match additionalLoop facade t.retryStrategy t.retryCount name
                  fuel 0 false ((lookupA m name).getD []) [] with
              | none => none
              | some (l2, acc) =>
                  let m2 := if acc.isEmpty then m else upsertA m name l2
                  ensureAdditionalTestsLoop facade fuel rest m2
                    (ens ++ acc.map (fun i => (name, i)))
            else ensureAdditionalTestsLoop facade fuel rest m ens

/-! ### Properties of the status write and the attempt loops -/

theorem recordStatus_length (l : List VerificationStatus) (jobNo : Int)
    (st : VerificationStatus) (l2 : List VerificationStatus)
    (h : recordStatus l jobNo st = some l2) :
    l2.length = l.length ∨
      ((l.length : Int) < jobNo ∧ l2.length = l.length + 1) := by
  unfold recordStatus at h
  split at h
  case isTrue hlt => right; exact ⟨hlt, by cases h; simp⟩
  case isFalse =>
    split at h
    case isTrue => left; cases h; simp
    case isFalse => cases h

/-- At exactly the fresh-attempt index (`jobNo = len`) the status write of
`ensureCandidateTests` panics: `len < jobNo` is false, so the code indexes
`testStatus[name][jobNo]` one past the end. -/
theorem recordStatus_fresh_none (l : List VerificationStatus)
    (st : VerificationStatus) :
    recordStatus l (l.length : Int) st = none := by
  unfold recordStatus
  simp

/-- Claim C9 (code bug, concrete run): a fresh candidate-test slot (empty
persisted list, `maxRetries = 0`) reaches the status write with
`jobNo = 0 = len` and panics instead of appending — both sibling variants
use `len <= jobNo` and append here. -/
theorem C9_theorem :
    ensureCandidateSlot (fun _ => { state := statePending }) 0 "t"
      { maxRetries := 0, retryStrategy := strategyTillRetryCount } [] = none := by
  decide

theorem additionalLoop_pending_stuck (fuel : Nat) : ∀ acc : List Nat,
    additionalLoop (fun _ => { state := statePending }) strategyFirstSuccess 2 "t"
      fuel 0 false [{ state := statePending }] acc = none := by
  induction fuel with
  | zero => intro acc; rfl
  | succ fuel ih =>
      intro acc
      have hstep :
          additionalLoop (fun _ => { state := statePending })
            strategyFirstSuccess 2 "t" (fuel + 1) 0 false
            [{ state := statePending }] acc
          = additionalLoop (fun _ => { state := statePending })
              strategyFirstSuccess 2 "t" fuel 0 false
              [{ state := statePending }] (acc ++ [0]) := rfl
      rw [hstep]
      exact ih (acc ++ [0])

/-- Claim C8 (code bug): the attempt loop of the `retryCount`-bounded
`ensureAdditionalTests` never advances `jobNo` past an attempt whose
re-read status is still Pending, so with a facade that keeps reporting
Pending for attempt 0 the loop revisits index 0 forever: for every fuel
bound the loop fails to terminate within it. -/
theorem C8_theorem (fuel : Nat) :
    additionalLoop (fun _ => { state := statePending }) strategyFirstSuccess 2 "t"
      fuel 0 false [] [] = none := by
  cases fuel with
  | zero => rfl
  | succ fuel =>
      have hstep :
          additionalLoop (fun _ => { state := statePending })
            strategyFirstSuccess 2 "t" (fuel + 1) 0 false [] []
          = additionalLoop (fun _ => { state := statePending })
              strategyFirstSuccess 2 "t" fuel 0 false
              [{ state := statePending }] [0] := rfl
      rw [hstep]
      exact additionalLoop_pending_stuck fuel [0]

theorem additionalEnsure_length_bound (facade : String → VerificationStatus)
    (name : String) (jobNo : Nat) (l : List VerificationStatus) (rc : Int)
    (hj : (jobNo : Int) < rc) (hl : (l.length : Int) ≤ rc) :
    (((additionalEnsure facade name jobNo l).length : Int)) ≤ rc := by
  unfold additionalEnsure
  split
  case isTrue hle =>
    simp only [List.length_append, List.length_singleton]
    push_cast
    omega
  case isFalse =>
    simp only [List.length_set]
    exact hl

theorem additionalLoop_bound (facade : String → VerificationStatus)
    (strategy : String) (retryCount : Int) (name : String) :
    ∀ (fuel jobNo : Nat) (skipTest : Bool) (l : List VerificationStatus)
      (acc : List Nat) (out : List VerificationStatus × List Nat),
      additionalLoop facade strategy retryCount name fuel jobNo skipTest l acc
        = some out →
      (l.length : Int) ≤ retryCount →
      (∀ i ∈ acc, (i : Int) < retryCount) →
      (out.1.length : Int) ≤ retryCount ∧ ∀ i ∈ out.2, (i : Int) < retryCount := by
  intro fuel
  induction fuel with
  | zero =>
      intro jobNo skipTest l acc out h _ _
      exact absurd h (by simp [additionalLoop])
  | succ fuel ih =>
      intro jobNo skipTest l acc out h hl hacc
      simp only [additionalLoop] at h
      split at h
      case isTrue hjn =>
        split at h
        case isTrue => cases h; exact ⟨hl, hacc⟩
        case isFalse =>
          split at h
          case isTrue hidx =>
            split at h
            case isTrue => exact ih _ _ _ _ _ h hl hacc
            case isFalse =>
              split at h
              case isTrue => exact ih _ _ _ _ _ h hl hacc
              case isFalse =>
                split at h
                case isTrue =>
                  refine ih _ _ _ _ _ h
                    (additionalEnsure_length_bound _ _ _ _ _ hjn hl) ?_
                  intro i hi
                  rcases List.mem_append.mp hi with hi | hi
                  · exact hacc i hi
                  · simpa using List.mem_singleton.mp hi ▸ hjn
                case isFalse => exact ih _ _ _ _ _ h hl hacc
          case isFalse =>
            refine ih _ _ _ _ _ h
              (additionalEnsure_length_bound _ _ _ _ _ hjn hl) ?_
            intro i hi
            rcases List.mem_append.mp hi with hi | hi
            · exact hacc i hi
            · simpa using List.mem_singleton.mp hi ▸ hjn
      case isFalse =>
        cases h
        exact ⟨hl, hacc⟩

theorem ensureAdditionalTestsLoop_untouched
    (facade : String → VerificationStatus) (fuel : Nat)
    (tests : List (String × ReleaseAdditionalTest)) :
    ∀ (m : List (String × List VerificationStatus)) (ens : List (String × Nat))
      out (k : String),
      ensureAdditionalTestsLoop facade fuel tests m ens = some out →
      (∀ p ∈ tests, p.1 ≠ k) →
      lookupA out.1 k = lookupA m k ∧
        ∀ i : Nat, (k, i) ∈ out.2 → (k, i) ∈ ens := by
  induction tests with
  | nil =>
      intro m ens out k h _
      cases h
      exact ⟨rfl, fun _ hi => hi⟩
  | cons p rest ih =>
      obtain ⟨name, t⟩ := p
      intro m ens out k h hk
      have hnk : name ≠ k := hk (name, t) (List.mem_cons_self _ _)
      have hkrest : ∀ p ∈ rest, p.1 ≠ k := fun p hp =>
        hk p (List.mem_cons_of_mem _ hp)
      simp only [ensureAdditionalTestsLoop] at h
      split at h
      case isTrue => exact ih m ens out k h hkrest
      case isFalse =>
        split at h
        case h_1 => exact ih m ens out k h hkrest
        case h_2 =>
          split at h
          case isTrue =>
            split at h
            case h_1 => cases h
            case h_2 l2 acc hloop =>
              obtain ⟨h1, h2⟩ := ih _ _ out k h hkrest
              constructor
              · rw [h1]
                by_cases hae : acc.isEmpty
                · simp [hae]
                · simp [hae, lookupA_upsertA_ne _ _ _ _ hnk]
              · intro i hi
                rcases List.mem_append.mp (h2 i hi) with h3 | h3
                · exact h3
                · exfalso
                  obtain ⟨j, _, hj⟩ := List.mem_map.mp h3
                  exact hnk (congrArg Prod.fst hj)
          case isFalse => exact ih m ens out k h hkrest

theorem ensureAdditionalTestsLoop_bound
    (facade : String → VerificationStatus) (fuel : Nat)
    (tests : List (String × ReleaseAdditionalTest)) :
    ∀ (m : List (String × List VerificationStatus)) (ens : List (String × Nat))
      out (name : String) (t : ReleaseAdditionalTest),
      ensureAdditionalTestsLoop facade fuel tests m ens = some out →
      (name, t) ∈ tests →
      (tests.map Prod.fst).Nodup →
      (((lookupA m name).getD []).length : Int) ≤ t.retryCount →
      (∀ i : Nat, (name, i) ∈ ens → (i : Int) < t.retryCount) →
      (((lookupA out.1 name).getD []).length : Int) ≤ t.retryCount ∧
        ∀ i : Nat, (name, i) ∈ out.2 → (i : Int) < t.retryCount := by
  induction tests with
  | nil =>
      intro m ens out name t _ hmem
      cases hmem
  | cons p rest ih =>
      obtain ⟨n2, t2⟩ := p
      intro m ens out name t h hmem hnd hlen hens
      have hnd2 : n2 ∉ rest.map Prod.fst ∧ (rest.map Prod.fst).Nodup := by
        simpa [List.nodup_cons] using hnd
      rcases List.mem_cons.mp hmem with hhead | htail
      · -- the head slot is the slot under scrutiny
        obtain ⟨hn, ht⟩ := Prod.mk.injEq .. ▸ hhead
        subst hn
        subst ht
        have hkrest : ∀ p ∈ rest, p.1 ≠ name := by
          intro p hp heq
          exact hnd2.1 (heq ▸ List.mem_map_of_mem Prod.fst hp)
        simp only [ensureAdditionalTestsLoop] at h
        split at h
        case isTrue =>
          obtain ⟨h1, h2⟩ := ensureAdditionalTestsLoop_untouched facade fuel
            rest m ens out name h hkrest
          exact ⟨h1 ▸ hlen, fun i hi => hens i (h2 i hi)⟩
        case isFalse =>
          split at h
          case h_1 =>
            obtain ⟨h1, h2⟩ := ensureAdditionalTestsLoop_untouched facade fuel
              rest m ens out name h hkrest
            exact ⟨h1 ▸ hlen, fun i hi => hens i (h2 i hi)⟩
          case h_2 =>
            split at h
            case isTrue =>
              split at h
              case h_1 => cases h
              case h_2 l2 acc hloop =>
                obtain ⟨hl2, hacc⟩ := additionalLoop_bound facade _ _ name fuel
                  0 false _ [] (l2, acc) hloop hlen (by simp)
                obtain ⟨h1, h2⟩ := ensureAdditionalTestsLoop_untouched facade
                  fuel rest _ _ out name h hkrest
                constructor
                · rw [h1]
                  by_cases hae : acc.isEmpty
                  · simpa [hae] using hlen
                  · simpa [hae, lookupA_upsertA_self] using hl2
                · intro i hi
                  rcases List.mem_append.mp (h2 i hi) with h3 | h3
                  · exact hens i h3
                  · obtain ⟨j, hj1, hj2⟩ := List.mem_map.mp h3
                    cases hj2
                    exact hacc _ hj1
            case isFalse =>
              obtain ⟨h1, h2⟩ := ensureAdditionalTestsLoop_untouched facade fuel
                rest m ens out name h hkrest
              exact ⟨h1 ▸ hlen, fun i hi => hens i (h2 i hi)⟩
      · -- the slot under scrutiny is further down the list
        have hne : n2 ≠ name := by
          intro heq
          exact hnd2.1 (heq ▸ List.mem_map_of_mem Prod.fst htail)
        simp only [ensureAdditionalTestsLoop] at h
        split at h
        case isTrue => exact ih m ens out name t h htail hnd2.2 hlen hens
        case isFalse =>
          split at h
          case h_1 => exact ih m ens out name t h htail hnd2.2 hlen hens
          case h_2 =>
            split at h
            case isTrue =>
              split at h
              case h_1 => cases h
              case h_2 l2 acc hloop =>
                refine ih _ _ out name t h htail hnd2.2 ?_ ?_
                · by_cases hae : acc.isEmpty
                  · simpa [hae] using hlen
                  · simpa [hae, lookupA_upsertA_ne _ _ _ _ hne] using hlen
                · intro i hi
                  rcases List.mem_append.mp hi with h3 | h3
                  · exact hens i h3
                  · exfalso
                    obtain ⟨j, _, hj⟩ := List.mem_map.mp h3
                    exact hne (congrArg Prod.fst hj)
            case isFalse => exact ih m ens out name t h htail hnd2.2 hlen hens

theorem candidateSlot_bound (facade : String → VerificationStatus) (now : Int)
    (name : String) (test : ReleaseCandidateTestP)
    (prior : List VerificationStatus)
    (out : List VerificationStatus × Option (String × Int) × Option Int)
    (h : ensureCandidateSlot facade now name test prior = some out)
    (hb : (prior.length : Int) ≤ test.maxRetries + 1) :
    (out.1.length : Int) ≤ test.maxRetries + 1 ∧
      ∀ jn, out.2.1 = some jn → jn.2 ≤ test.maxRetries := by
  simp only [ensureCandidateSlot] at h
  set s := scanCandidate test.retryStrategy test.maxRetries prior 0 0 with hs
  set jobName := if 0 < s.1 then name ++ "-" ++ toString s.1 else name
    with hjobName
  split at h
  case isTrue =>
    cases h
    exact ⟨hb, by intro jn hjn; cases hjn⟩
  case isFalse hng =>
    push_neg at hng
    split at h
    case h_1 => cases h
    case h_2 l2 hrec =>
      have hlen : (l2.length : Int) ≤ test.maxRetries + 1 := by
        rcases recordStatus_length _ _ _ _ hrec with heq | ⟨hlt, heq⟩
        · rw [heq]; exact hb
        · rw [heq]; push_cast; omega
      split at h
      case isTrue =>
        cases h
        exact ⟨hlen, by intro jn hjn; cases hjn; exact hng⟩
      case isFalse =>
        split at h
        case isTrue =>
          cases h
          exact ⟨hlen, by intro jn hjn; cases hjn; exact hng⟩
        case isFalse =>
          cases h
          exact ⟨hlen, by intro jn hjn; cases hjn; exact hng⟩

theorem ensureCandidateTestsProcess_untouched
    (facade : String → VerificationStatus) (now : Int)
    (tests : List (String × ReleaseCandidateTestP)) :
    ∀ (m : List (String × List VerificationStatus)) (delay : Int)
      (ens : List (String × Int)) out (k : String),
      ensureCandidateTestsProcess facade now tests m delay ens = some out →
      (∀ p ∈ tests, p.1 ≠ k) →
      lookupA out.1 k = lookupA m k ∧
        ∀ i : Int, (k, i) ∈ out.2.2 → (k, i) ∈ ens := by
  induction tests with
  | nil =>
      intro m delay ens out k h _
      cases h
      exact ⟨rfl, fun _ hi => hi⟩
  | cons p rest ih =>
      obtain ⟨name, t⟩ := p
      intro m delay ens out k h hk
      have hnk : name ≠ k := hk (name, t) (List.mem_cons_self _ _)
      have hkrest : ∀ p ∈ rest, p.1 ≠ k := fun p hp =>
        hk p (List.mem_cons_of_mem _ hp)
      simp only [ensureCandidateTestsProcess] at h
      split at h
      case h_1 => cases h
      case h_2 l2 ensured dly hslot =>
        obtain ⟨h1, h2⟩ := ih _ _ _ out k h hkrest
        constructor
        · rw [h1]
          cases ensured with
          | none => rfl
          | some e => exact lookupA_upsertA_ne _ _ _ _ hnk
        · intro i hi
          have h3 := h2 i hi
          cases ensured with
          | none => exact h3
          | some e =>
              rcases List.mem_append.mp h3 with h4 | h4
              · exact h4
              · exact absurd (congrArg Prod.fst (List.mem_singleton.mp h4)).symm hnk

theorem ensureCandidateTestsProcess_bound
    (facade : String → VerificationStatus) (now : Int)
    (tests : List (String × ReleaseCandidateTestP)) :
    ∀ (m : List (String × List VerificationStatus)) (delay : Int)
      (ens : List (String × Int)) out (name : String)
      (t : ReleaseCandidateTestP),
      ensureCandidateTestsProcess facade now tests m delay ens = some out →
      (name, t) ∈ tests →
      (tests.map Prod.fst).Nodup →
      (((lookupA m name).getD []).length : Int) ≤ t.maxRetries + 1 →
      (∀ i : Int, (name, i) ∈ ens → i ≤ t.maxRetries) →
      (((lookupA out.1 name).getD []).length : Int) ≤ t.maxRetries + 1 ∧
        ∀ i : Int, (name, i) ∈ out.2.2 → i ≤ t.maxRetries := by
  induction tests with
  | nil =>
      intro m delay ens out name t _ hmem
      cases hmem
  | cons p rest ih =>
      obtain ⟨n2, t2⟩ := p
      intro m delay ens out name t h hmem hnd hlen hens
      have hnd2 : n2 ∉ rest.map Prod.fst ∧ (rest.map Prod.fst).Nodup := by
        simpa [List.nodup_cons] using hnd
      rcases List.mem_cons.mp hmem with hhead | htail
      · obtain ⟨hn, ht⟩ := Prod.mk.injEq .. ▸ hhead
        subst hn
        subst ht
        have hkrest : ∀ p ∈ rest, p.1 ≠ name := by
          intro p hp heq
          exact hnd2.1 (heq ▸ List.mem_map_of_mem Prod.fst hp)
        simp only [ensureCandidateTestsProcess] at h
        split at h
        case h_1 => cases h
        case h_2 l2 ensured dly hslot =>
          obtain ⟨hl2, hjn⟩ := candidateSlot_bound facade now name t _
            (l2, ensured, dly) hslot hlen
          obtain ⟨h1, h2⟩ := ensureCandidateTestsProcess_untouched facade now
            rest _ _ _ out name h hkrest
          constructor
          · rw [h1]
            cases ensured with
            | none => exact hlen
            | some e => simpa [lookupA_upsertA_self] using hl2
          · intro i hi
            have h3 := h2 i hi
            cases ensured with
            | none => exact hens i h3
            | some e =>
                rcases List.mem_append.mp h3 with h4 | h4
                · exact hens i h4
                · have he := List.mem_singleton.mp h4
                  have hi2 : i = e.2 := congrArg Prod.snd he
                  subst hi2
                  exact hjn e rfl
      · have hne : n2 ≠ name := by
          intro heq
          exact hnd2.1 (heq ▸ List.mem_map_of_mem Prod.fst htail)
        simp only [ensureCandidateTestsProcess] at h
        split at h
        case h_1 => cases h
        case h_2 l2 ensured dly hslot =>
          refine ih _ _ _ out name t h htail hnd2.2 ?_ ?_
          · cases ensured with
            | none => exact hlen
            | some e => simpa [lookupA_upsertA_ne _ _ _ _ hne] using hlen
          · intro i hi
            cases ensured with
            | none => exact hens i hi
            | some e =>
                rcases List.mem_append.mp hi with h4 | h4
                · exact hens i h4
                · exact absurd (congrArg Prod.fst (List.mem_singleton.mp h4)).symm hne

/-- Claim C2: in both multi-attempt orchestrators, a reconcile never
ensures or records an attempt at an index beyond the per-slot bound, and
the persisted attempt count per slot stays within it: `retryCount` for
the `retryCount`-bounded `ensureAdditionalTests` variant and
`maxRetries + 1` for `ensureCandidateTests` (ensured attempt indices up to
`maxRetries`). -/
theorem C2_theorem :
    (∀ (facade : String → VerificationStatus) (fuel : Nat)
       (tests : List (String × ReleaseAdditionalTest))
       (m : List (String × List VerificationStatus)) out
       (name : String) (t : ReleaseAdditionalTest),
       ensureAdditionalTestsLoop facade fuel tests m [] = some out →
       (name, t) ∈ tests →
       (tests.map Prod.fst).Nodup →
       (((lookupA m name).getD []).length : Int) ≤ t.retryCount →
       (((lookupA out.1 name).getD []).length : Int) ≤ t.retryCount ∧
         ∀ i : Nat, (name, i) ∈ out.2 → (i : Int) < t.retryCount) ∧
    (∀ (facade : String → VerificationStatus) (now : Int)
       (tests : List (String × ReleaseCandidateTestP))
       (m : List (String × List VerificationStatus)) out
       (name : String) (t : ReleaseCandidateTestP),
       ensureCandidateTestsProcess facade now tests m 0 [] = some out →
       (name, t) ∈ tests →
       (tests.map Prod.fst).Nodup →
       (((lookupA m name).getD []).length : Int) ≤ t.maxRetries + 1 →
       (((lookupA out.1 name).getD []).length : Int) ≤ t.maxRetries + 1 ∧
         ∀ i : Int, (name, i) ∈ out.2.2 → i ≤ t.maxRetries) := by
  constructor
  · intro facade fuel tests m out name t h hmem hnd hlen
    exact ensureAdditionalTestsLoop_bound facade fuel tests m [] out name t
      h hmem hnd hlen (by simp)
  · intro facade now tests m out name t h hmem hnd hlen
    exact ensureCandidateTestsProcess_bound facade now tests m 0 [] out name t
      h hmem hnd hlen (by simp)

/-- Witness for C2: one concrete reconcile of each orchestrator. -/
theorem C2_witness :
    ((((lookupA [("t", [({ state := stateSucceeded } : VerificationStatus)])] "t").getD
        []).length : Int) ≤ (1 : Int) ∧
      ∀ i : Nat, (("t" : String), i) ∈ [(("t" : String), (0 : Nat))] →
        (i : Int) < (1 : Int)) ∧
    ((((lookupA [("c", [({ state := stateSucceeded } : VerificationStatus)])] "c").getD
        []).length : Int) ≤ (0 : Int) + 1 ∧
      ∀ i : Int, (("c" : String), i) ∈ [(("c" : String), (0 : Int))] →
        i ≤ (0 : Int)) := by
  constructor
  · exact C2_theorem.1 (fun _ => { state := stateSucceeded }) 3
      [("t", { prowJobName := some "j",
               retryStrategy := strategyTillRetryCount, retryCount := 1 })]
      [] ([("t", [{ state := stateSucceeded }])], [("t", 0)]) "t"
      { prowJobName := some "j",
        retryStrategy := strategyTillRetryCount, retryCount := 1 }
      (by decide) (by decide) (by decide) (by decide)
  · exact C2_theorem.2 (fun _ => { state := stateSucceeded }) 0
      [("c", { maxRetries := 0, retryStrategy := strategyTillRetryCount })]
      [("c", [{ state := statePending }])]
      ([("c", [{ state := stateSucceeded }])], 0, [("c", 0)]) "c"
      { maxRetries := 0, retryStrategy := strategyTillRetryCount }
      (by decide) (by decide) (by decide) (by decide)

/-! ### The FirstSuccess short-circuit -/

theorem additionalLoop_skipTest_exits (facade : String → VerificationStatus)
    (strategy : String) (rc : Int) (name : String) (fuel jobNo : Nat)
    (l : List VerificationStatus) (acc : List Nat) :
    additionalLoop facade strategy rc name (fuel + 1) jobNo true l acc
      = some (l, acc) := by
  simp only [additionalLoop]
  split <;> rfl

theorem additionalLoop_firstSuccess_prefix (facade : String → VerificationStatus)
    (rc : Int) (name : String) (pre : List VerificationStatus)
    (s : VerificationStatus) (suf : List VerificationStatus)
    (hpre : ∀ x ∈ pre, x.state = stateFailed)
    (hs : s.state = stateSucceeded) :
    ∀ (fuel jobNo : Nat) (acc : List Nat),
      jobNo ≤ pre.length →
      pre.length + 2 ≤ fuel + jobNo →
      additionalLoop facade strategyFirstSuccess rc name fuel jobNo false
        (pre ++ s :: suf) acc = some (pre ++ s :: suf, acc) := by
  intro fuel
  induction fuel with
  | zero =>
      intro jobNo acc hj hf
      omega
  | succ fuel ih =>
      intro jobNo acc hj hf
      simp only [additionalLoop, Bool.false_eq_true, if_false]
      split
      case isFalse => rfl
      case isTrue hrc =>
        have hjl : jobNo < (pre ++ s :: suf).length := by
          simp only [List.length_append, List.length_cons]
          omega
        rw [if_pos hjl]
        rcases Nat.lt_or_ge jobNo pre.length with hlt | hge
        · have hx : (pre ++ s :: suf).getD jobNo { state := "" }
              = pre.getD jobNo { state := "" } := by
            rw [List.getD_eq_getElem?_getD, List.getD_eq_getElem?_getD,
              List.getElem?_append_left hlt]
          have hmem : pre.getD jobNo { state := "" } ∈ pre := by
            rw [List.getD_eq_getElem _ _ hlt]
            exact List.getElem_mem _
          have hstate := hpre _ hmem
          rw [hx]
          rw [if_neg (by rw [hstate]; decide), if_pos hstate]
          rw [if_neg (by decide)]
          exact ih (jobNo + 1) acc (by omega) (by omega)
        · have hje : jobNo = pre.length := le_antisymm hj hge
          have hx : (pre ++ s :: suf).getD jobNo { state := "" } = s := by
            subst hje
            rw [List.getD_eq_getElem?_getD, List.getElem?_append_right le_rfl]
            simp
          rw [hx, if_pos hs, if_pos trivial]
          rcases fuel with _ | fuel
          · omega
          · exact additionalLoop_skipTest_exits facade strategyFirstSuccess rc
              name fuel (jobNo + 1) (pre ++ s :: suf) acc

theorem scanCandidate_firstSuccess (maxRetries : Int)
    (pre : List VerificationStatus) (s : VerificationStatus)
    (suf : List VerificationStatus)
    (hpre : ∀ x ∈ pre, x.state = stateFailed)
    (hs : s.state = stateSucceeded) :
    ∀ (jobNo failed : Int),
      scanCandidate strategyFirstSuccess maxRetries (pre ++ s :: suf)
        jobNo failed = (maxRetries + 1, 0) := by
  induction pre with
  | nil =>
      intro jobNo failed
      simp only [List.nil_append, scanCandidate]
      rw [if_pos hs, if_pos trivial]
  | cons x pre ih =>
      intro jobNo failed
      have hx := hpre x (List.mem_cons_self _ _)
      simp only [List.cons_append, scanCandidate]
      rw [if_neg (by rw [hx]; decide), if_pos hx]
      exact ih (fun y hy => hpre y (List.mem_cons_of_mem _ hy)) _ _

/-- Claim C3 (counterexample): under `FirstSuccess`, a slot whose
persisted list is `[Pending, Succeeded]` — a Succeeded attempt preceded by
a still-pending one — nevertheless has a job ensured for attempt 0 (the
pending attempt is re-ensured in place), refuting "no job is ensured" for
every list containing a Succeeded attempt. -/
theorem C3_counterexample :
    ensureCandidateSlot (fun _ => { state := statePending }) 0 "t"
      { maxRetries := 1, retryStrategy := strategyFirstSuccess }
      [{ state := statePending }, { state := stateSucceeded }]
    = some ([{ state := statePending }, { state := stateSucceeded }],
            some ("t", 0), none) := by
  decide

/-- Claim C3 (amended): under `FirstSuccess`, for every slot whose
persisted status list contains a Succeeded attempt preceded only by
Failed attempts, neither orchestrator creates a further attempt: no job
is ensured and the slot's list is unchanged.  (If a Pending or
unrecognized attempt precedes the first Succeeded one, the orchestrator
still re-ensures that earlier attempt in place, as the counterexample
shows.) -/
theorem C3_theorem :
    (∀ (facade : String → VerificationStatus) (now : Int) (name : String)
       (test : ReleaseCandidateTestP) (pre : List VerificationStatus)
       (s : VerificationStatus) (suf : List VerificationStatus),
       test.retryStrategy = strategyFirstSuccess →
       (∀ x ∈ pre, x.state = stateFailed) →
       s.state = stateSucceeded →
       ensureCandidateSlot facade now name test (pre ++ s :: suf)
         = some (pre ++ s :: suf, none, none)) ∧
    (∀ (facade : String → VerificationStatus) (rc : Int) (name : String)
       (pre : List VerificationStatus) (s : VerificationStatus)
       (suf : List VerificationStatus) (fuel : Nat) (acc : List Nat),
       (∀ x ∈ pre, x.state = stateFailed) →
       s.state = stateSucceeded →
       pre.length + 2 ≤ fuel →
       additionalLoop facade strategyFirstSuccess rc name fuel 0 false
         (pre ++ s :: suf) acc = some (pre ++ s :: suf, acc)) := by
  constructor
  · intro facade now name test pre s suf hstrat hpre hs
    simp only [ensureCandidateSlot, hstrat]
    rw [scanCandidate_firstSuccess test.maxRetries pre s suf hpre hs 0 0]
    rw [if_pos (by omega)]
  · intro facade rc name pre s suf fuel acc hpre hs hfuel
    exact additionalLoop_firstSuccess_prefix facade rc name pre s suf hpre hs
      fuel 0 acc (Nat.zero_le _) (by omega)

/-- Witness for C3: a slot with attempts `[Failed, Succeeded]` under
`FirstSuccess` is left untouched by both orchestrators. -/
theorem C3_witness :
    (ensureCandidateSlot (fun _ => { state := statePending }) 0 "w"
      { maxRetries := 3, retryStrategy := strategyFirstSuccess }
      [{ state := stateFailed }, { state := stateSucceeded }]
      = some ([{ state := stateFailed }, { state := stateSucceeded }],
              none, none)) ∧
    (additionalLoop (fun _ => { state := statePending })
      strategyFirstSuccess 4 "w" 9 0 false
      [{ state := stateFailed }, { state := stateSucceeded }] []
      = some ([{ state := stateFailed }, { state := stateSucceeded }], [])) := by
  constructor
  · exact C3_theorem.1 (fun _ => { state := statePending }) 0 "w"
      { maxRetries := 3, retryStrategy := strategyFirstSuccess }
      [{ state := stateFailed }] { state := stateSucceeded } []
      rfl (by intro x hx; rw [List.mem_singleton.mp hx]) rfl
  · exact C3_theorem.2 (fun _ => { state := statePending }) 4 "w"
      [{ state := stateFailed }] { state := stateSucceeded } [] 9 []
      (by intro x hx; rw [List.mem_singleton.mp hx]) rfl (by norm_num)

/-! ## Upgrade-source resolver

Source: `getUpgradeSource` (part_001, lines 358-430) and `isRallyPoint`
(part_001, lines 560-566).  The resolver consults helpers
(`tagsForRelease`, `semanticTagsForRelease` + `sort.Sort`,
`latestTagsWithMajorMinorSemanticVersion`) whose definitions are not
among the sources; they are modelled from the spec where noted.  Semver
values are `blang/semver` versions. -/

/-- A `blang/semver` version (`Pre`/`Build` kept only as emptiness-tested
lists). -/
structure Version where
  major : Nat
  minor : Nat
  patch : Nat
  pre : List String := []
  build : List String := []
deriving DecidableEq, Repr

/-- An accepted stable tag paired with its parsed semantic version (an
entry of the `SemanticVersions` list `semanticTagsForRelease` returns). -/
structure StableTag where
  name : String
  ver : Version
deriving DecidableEq, Repr

/-- One stable release as seen by the resolver.  Modelled from the spec:
`semanticTagsForRelease(stable.Release, Accepted)` followed by
`sort.Sort` yields the accepted, semver-parseable tags newest first;
`semTags` is that list (the spec's stable index is "sorted newest
first").  `targetRepo` is
`stable.Release.Target.Status.PublicDockerImageRepository`. -/
structure StableLine where
  semTags : List StableTag
  targetRepo : String
deriving DecidableEq, Repr

/-- Go `upgradeSource` (part_001, lines 353-356). -/
structure UpgradeSourceE where
  tag : String
  pullSpec : String
deriving DecidableEq, Repr

/-- Go `releaseUpgradeFromPrevious` -/
def upgradeFromPrevious : String := "Previous"

/-- Go `releaseUpgradeFromPreviousMinor` -/
def upgradeFromPreviousMinor : String := "PreviousMinor"

/-- Go `releaseUpgradeFromPreviousPatch` -/
def upgradeFromPreviousPatch : String := "PreviousPatch"

/-- Go `releaseUpgradeFromRallyPoint` -/
def upgradeFromRallyPoint : String := "RallyPoint"

/-- Go `releaseConfigModeStable` -/
def configModeStable : String := "Stable"

/-- Does a stable tag lie in the target's `(major, minor)` line? -/
def matchesMajorMinor (target : Version) (t : StableTag) : Bool :=
  t.ver.major == target.major && t.ver.minor == target.minor

/-- Modelled from the spec: `latestTagsWithMajorMinorSemanticVersion`
(not among the sources) returns the tags of the given sorted list lying
in the target's `(major, minor)` line, newest first, or nil when there
are none.  The count argument the source passes (1 or 10) is not
modelled: the spec describes both the single-source policies (which use
only the newest element) and the RallyPoint walk without a bound. -/
def latestTagsWithMajorMinorSemanticVersion (versions : List StableTag)
    (target : Version) : Option (List StableTag) :=
  let m := versions.filter (matchesMajorMinor target)
  if m.isEmpty then none else some m

/-- The `for _, stable := range ref.Releases` scan shared by the three
stable-index policies: the first stable release whose tag list has a
match is used. -/
def firstStableMatch (target : Version) :
    List StableLine → Option (StableLine × List StableTag)
  | [] => none
  | r :: rest =>
      match latestTagsWithMajorMinorSemanticVersion r.semTags target with
      | some m => some (r, m)
      | none => firstStableMatch target rest

/-- Go `isRallyPoint` (part_001): strict-parse the tag name; a rally point
has patch divisible by 10. -/
def isRallyPoint (parse : String → Option Version) (t : StableTag) : Bool :=
  match parse t.name with
  | none => false
  | some v => v.patch % 10 == 0

/-- The source-walking loop of the RallyPoint case: emit each tag,
stopping after the first rally point. -/
def rallySources (parse : String → Option Version) (repo : String) :
    List StableTag → List UpgradeSourceE
  | [] => []
  | t :: rest =>
      { tag := t.name, pullSpec := repo ++ ":" ++ t.name } ::
        (if isRallyPoint parse t then [] else rallySources parse repo rest)

/-- The error every fall-through of the `switch upgradeType` produces. -/
def invalidUpgradeFromMsg (cfgName verifyName upgradeType : String) : String :=
  "release " ++ cfgName ++ " has verify type " ++ verifyName ++
    " which defines invalid upgradeFrom: " ++ upgradeType

/-- The environment `getUpgradeSource` reads: the release config mode and
name, the current release's accepted tags (modelled from the spec:
`tagsForRelease(release, Accepted)`, newest first), the release target
repository, and the stable-release index (`.error` = `stableReleases()`
failed). -/
structure UpgradeEnv where
  configAs : String
  configName : String
  currentAcceptedTags : List String
  targetRepo : String
  stable : Except Unit (List StableLine)

/-- Go `getUpgradeSource` (part_001).  Each `switch` case that finds no
source falls out of the switch into the shared
`return nil, fmt.Errorf("... invalid upgradeFrom: ...")`; this is
embedded as an `Option` (`attempt`) whose `none` becomes that error.
`firstStableMatch` never returns an empty match list, so the
`some (r, [])` arms are unreachable and map to the fall-through. -/
def getUpgradeSource (parse : String → Option Version) (env : UpgradeEnv)
    (releaseTagName verifyName upgradeFrom : String) :
    Except String (List UpgradeSourceE) :=
  let upgradeType0 := if env.configAs = configModeStable
    then upgradeFromPreviousPatch else upgradeFromPrevious
  let upgradeType := if 0 < upgradeFrom.length then upgradeFrom else upgradeType0
  let attempt : Option (List UpgradeSourceE) :=
    if upgradeType = upgradeFromPrevious then
      match env.currentAcceptedTags with
      | [] => none
      | t :: _ => some [{ tag := t, pullSpec := env.targetRepo ++ ":" ++ t }]
    else if upgradeType = upgradeFromPreviousMinor then
      match parse releaseTagName with
      | some v =>
          if 0 < v.minor then
            match env.stable with
            | .ok stables =>
                match firstStableMatch { v with minor := v.minor - 1 } stables with
                | some (r, t :: _) =>
                    some [{ tag := t.name,
                            pullSpec := r.targetRepo ++ ":" ++ t.name }]
                | _ => none
            | .error _ => none
          else none
      | none => none
    else if upgradeType = upgradeFromPreviousPatch then
      match parse releaseTagName with
      | some v =>
          match env.stable with
          | .ok stables =>
              match firstStableMatch v stables with
              | some (r, t :: _) =>
                  some [{ tag := t.name,
                          pullSpec := r.targetRepo ++ ":" ++ t.name }]
              | _ => none
          | .error _ => none
      | none => none
    else if upgradeType = upgradeFromRallyPoint then
      match parse releaseTagName with
      | some v =>
          match env.stable with
          | .ok stables =>
              match firstStableMatch v stables with
              | some (r, m) => some (rallySources parse r.targetRepo m)
              | none => none
          | .error _ => none
      | none => none
    else none
  match attempt with
  | some sources => .ok sources
  | none => .error (invalidUpgradeFromMsg env.configName verifyName upgradeType)

/-- Claim C4 (code bug, concrete run): the `Previous` policy — a known
policy — with no accepted tag in the current release returns the
"invalid upgradeFrom" error instead of an empty result; the
`UpgradeFrom` field's own doc comment says "If no matching target exists
the job will be a no-op". -/
theorem C4_theorem :
    getUpgradeSource (fun _ => none)
      { configAs := "", configName := "stable-4.x", currentAcceptedTags := [],
        targetRepo := "repo", stable := .ok [] }
      "4.5.3" "upgrade-slot" upgradeFromPrevious
    = Except.error
        (invalidUpgradeFromMsg "stable-4.x" "upgrade-slot" upgradeFromPrevious) := by
  rfl

/-! ## RallyPoint fan-out (claim C5) -/

/-- The claim's own description of the RallyPoint walk, stated on the
matching line: every tag up to and including the first tag whose patch
number is divisible by 10, and nothing after it.  Used as the
specification-side reference to compare `rallySources` against. -/
def specRallyWalk : List StableTag → List StableTag
  | [] => []
  | t :: rest => t :: (if t.ver.patch % 10 = 0 then [] else specRallyWalk rest)

theorem rallySources_eq_specRallyWalk (parse : String → Option Version)
    (repo : String) :
    ∀ m : List StableTag, (∀ t ∈ m, parse t.name = some t.ver) →
      rallySources parse repo m
        = (specRallyWalk m).map
            (fun t => { tag := t.name, pullSpec := repo ++ ":" ++ t.name }) := by
  intro m
  induction m with
  | nil => intro _; rfl
  | cons t rest ih =>
      intro hwf
      have ht := hwf t (List.mem_cons_self _ _)
      have hrp : isRallyPoint parse t = (t.ver.patch % 10 == 0) := by
        simp [isRallyPoint, ht]
      by_cases hp : t.ver.patch % 10 = 0
      · simp [rallySources, specRallyWalk, hrp, hp]
      · simp only [rallySources, specRallyWalk, hrp, if_neg hp]
        rw [if_neg (by simpa using hp)]
        simp only [List.map_cons]
        rw [ih (fun y hy => hwf y (List.mem_cons_of_mem _ hy))]

theorem firstStableMatch_filter (v : Version) :
    ∀ (stables : List StableLine) (r : StableLine) (m : List StableTag),
      firstStableMatch v stables = some (r, m) →
      m = r.semTags.filter (matchesMajorMinor v) := by
  intro stables
  induction stables with
  | nil => intro r m h; cases h
  | cons r2 rest ih =>
      intro r m h
      simp only [firstStableMatch, latestTagsWithMajorMinorSemanticVersion] at h
      by_cases he : (r2.semTags.filter (matchesMajorMinor v)).isEmpty
      · rw [if_pos he] at h
        exact ih r m h
      · rw [if_neg he] at h
        have h2 := Option.some.inj h
        have hr : r2 = r := congrArg Prod.fst h2
        have hm : r2.semTags.filter (matchesMajorMinor v) = m :=
          congrArg Prod.snd h2
        rw [← hm, hr]

/-! ### The slot-expansion phase of `ensureCandidateTests`
(part_001, lines 446-481). -/

/-- A candidate test as configured (`release.Config.CandidateTests`
entry). -/
structure ReleaseCandidateTestC where
  disabled : Bool := false
  upgrade : Bool := false
  upgradeFrom : String := ""
  prowJobName : Option String := none
  maxRetries : Int := 0
  retryStrategy : String := ""
  upgradeTag : String := ""
  upgradeRef : String := ""
deriving DecidableEq, Repr

/-- The `ReleaseCandidateTest` value stored for an expanded slot: the
source's tag and pull spec plus the configured strategy and
verification. -/
def expandEntry (t : ReleaseCandidateTestC) (src : UpgradeSourceE) :
    ReleaseCandidateTestP :=
  { maxRetries := t.maxRetries, retryStrategy := t.retryStrategy,
    upgradeTag := src.tag, upgradeRef := src.pullSpec }

/-- Go `srcName := name`, overridden to `name-<src.tag>` when the resolver
returned more than one source. -/
def expandSlotName (name : String) (many : Bool) (src : UpgradeSourceE) :
    String :=
  if many then name ++ "-" ++ src.tag else name

/-- The `for _, src := range upgradeSource` loop writing the expanded
slots into `candidateTests`. -/
def expandFold (name : String) (t : ReleaseCandidateTestC) (many : Bool)
    (acc : List (String × ReleaseCandidateTestP)) :
    List UpgradeSourceE → List (String × ReleaseCandidateTestP)
  | [] => acc
  | src :: rest =>
      expandFold name t many
        (upsertA acc (expandSlotName name many src) (expandEntry t src)) rest

/-- Outcome of the expansion phase: `aborted` is the
`return nil, nil, err` with a nil error taken when the resolver returns
an empty source list; `error` is the same return with the resolver's
error. -/
inductive ExpandResult
  | ok (tests : List (String × ReleaseCandidateTestP))
  | aborted
  | error (msg : String)
deriving DecidableEq, Repr

/-- The `for name, testType := range release.Config.CandidateTests` loop
of `ensureCandidateTests`: disabled and manual (no prow job) slots are
skipped; upgrade slots are fanned out over the resolver's sources. -/
def expandCandidateTests
    (resolve : String → String → Except String (List UpgradeSourceE)) :
    List (String × ReleaseCandidateTestC) →
    List (String × ReleaseCandidateTestP) → ExpandResult
  | [], acc => .ok acc
  | (name, t) :: rest, acc =>
      if t.disabled then expandCandidateTests resolve rest acc
      else match t.prowJobName with
        | none => expandCandidateTests resolve rest acc
        | some _ =>
            if t.upgrade then
              match resolve name t.upgradeFrom with
              | .error e => .error e
              | .ok [] => .aborted
              | .ok (s :: ss) =>
                  expandCandidateTests resolve rest
                    (expandFold name t (decide (1 < (s :: ss).length)) acc (s :: ss))
            else
              expandCandidateTests resolve rest
                (upsertA acc name
                  { maxRetries := t.maxRetries, retryStrategy := t.retryStrategy,
                    upgradeTag := t.upgradeTag, upgradeRef := t.upgradeRef })

theorem upsertA_keys_self {α : Type} (m : List (String × α)) (k : String)
    (v : α) : k ∈ (upsertA m k v).map Prod.fst := by
  induction m with
  | nil => simp [upsertA]
  | cons p rest ih =>
      obtain ⟨k2, v2⟩ := p
      by_cases h : k2 = k <;> simp [upsertA, h, ih]

theorem upsertA_keys_mono {α : Type} (m : List (String × α)) (k k2 : String)
    (v : α) (h : k ∈ m.map Prod.fst) :
    k ∈ (upsertA m k2 v).map Prod.fst := by
  induction m with
  | nil => simp at h
  | cons p rest ih =>
      obtain ⟨k3, v3⟩ := p
      rw [List.map_cons, List.mem_cons] at h
      by_cases h3 : k3 = k2
      · subst h3
        simpa [upsertA] using h
      · rcases h with h4 | h4
        · subst h4
          simp [upsertA, h3]
        · simp only [upsertA, if_neg h3, List.map_cons, List.mem_cons]
          exact Or.inr (ih h4)

theorem expandFold_keys_mono (name : String) (t : ReleaseCandidateTestC)
    (many : Bool) :
    ∀ (l : List UpgradeSourceE) (acc : List (String × ReleaseCandidateTestP))
      (k : String), k ∈ acc.map Prod.fst →
      k ∈ (expandFold name t many acc l).map Prod.fst := by
  intro l
  induction l with
  | nil => intro acc k h; exact h
  | cons src rest ih =>
      intro acc k h
      exact ih _ k (upsertA_keys_mono acc k _ _ h)

theorem expandFold_keys (name : String) (t : ReleaseCandidateTestC)
    (many : Bool) :
    ∀ (l : List UpgradeSourceE) (acc : List (String × ReleaseCandidateTestP))
      (src : UpgradeSourceE), src ∈ l →
      expandSlotName name many src ∈ (expandFold name t many acc l).map Prod.fst := by
  intro l
  induction l with
  | nil => intro acc src h; cases h
  | cons s rest ih =>
      intro acc src h
      rcases List.mem_cons.mp h with h1 | h1
      · subst h1
        exact expandFold_keys_mono name t many rest _ _
          (upsertA_keys_self acc _ _)
      · exact ih _ src h1

/-- Claim C5: under the RallyPoint policy the resolver returns the
accepted tags of the current `(major, minor)` stable line walked newest
first, up to and including the first tag whose patch number is divisible
by 10 and nothing after it; and when more than one source comes back,
`ensureCandidateTests` expands the slot into one slot per source named
`<slot>-<fromTag>`. -/
theorem C5_theorem :
    (∀ (parse : String → Option Version) (env : UpgradeEnv)
       (releaseTagName verifyName : String) (v : Version)
       (stables : List StableLine) (r : StableLine) (m : List StableTag),
       parse releaseTagName = some v →
       env.stable = .ok stables →
       firstStableMatch v stables = some (r, m) →
       (∀ t ∈ m, parse t.name = some t.ver) →
       m = r.semTags.filter (matchesMajorMinor v) ∧
       getUpgradeSource parse env releaseTagName verifyName upgradeFromRallyPoint
         = .ok ((specRallyWalk m).map
             (fun t => { tag := t.name, pullSpec := r.targetRepo ++ ":" ++ t.name }))) ∧
    (∀ (resolve : String → String → Except String (List UpgradeSourceE))
       (name : String) (t : ReleaseCandidateTestC) (s : UpgradeSourceE)
       (ss : List UpgradeSourceE),
       t.disabled = false → t.prowJobName.isSome → t.upgrade = true →
       resolve name t.upgradeFrom = .ok (s :: ss) →
       1 < (s :: ss).length →
       expandCandidateTests resolve [(name, t)] []
           = .ok (expandFold name t true [] (s :: ss)) ∧
         ∀ src ∈ s :: ss,
           (name ++ "-" ++ src.tag)
             ∈ (expandFold name t true [] (s :: ss)).map Prod.fst) := by
  constructor
  · intro parse env releaseTagName verifyName v stables r m hparse hstable
      hmatch hwf
    refine ⟨firstStableMatch_filter v stables r m hmatch, ?_⟩
    simp only [getUpgradeSource]
    rw [if_pos (show 0 < upgradeFromRallyPoint.length by decide)]
    rw [if_neg (show ¬ upgradeFromRallyPoint = upgradeFromPrevious by decide)]
    rw [if_neg (show ¬ upgradeFromRallyPoint = upgradeFromPreviousMinor by decide)]
    rw [if_neg (show ¬ upgradeFromRallyPoint = upgradeFromPreviousPatch by decide)]
    rw [if_pos (rfl : upgradeFromRallyPoint = upgradeFromRallyPoint)]
    simp only [hparse, hstable, hmatch]
    rw [rallySources_eq_specRallyWalk parse r.targetRepo m hwf]
  · intro resolve name t s ss hdis hpj hup hres hlen
    obtain ⟨j, hj⟩ := Option.isSome_iff_exists.mp hpj
    have hmany : decide (1 < (s :: ss).length) = true := decide_eq_true hlen
    have hexp : expandCandidateTests resolve [(name, t)] []
        = .ok (expandFold name t true [] (s :: ss)) := by
      simp only [expandCandidateTests, hdis, hj, hup, hres]
      rw [if_neg (by decide)]
      rw [decide_eq_true hlen]
      rw [if_pos trivial]
    refine ⟨hexp, ?_⟩
    intro src hsrc
    have := expandFold_keys name t true (s :: ss) [] src hsrc
    simpa [expandSlotName] using this

/-- Concrete parse table for the C5 witness (spec scenario 4). -/
def parseW : String → Option Version := fun s =>
  if s = "4.5.3" then some { major := 4, minor := 5, patch := 3 }
  else if s = "4.5.12" then some { major := 4, minor := 5, patch := 12 }
  else if s = "4.5.11" then some { major := 4, minor := 5, patch := 11 }
  else if s = "4.5.10" then some { major := 4, minor := 5, patch := 10 }
  else if s = "4.5.9" then some { major := 4, minor := 5, patch := 9 }
  else none

/-- The stable `(4, 5)` line of the C5 witness, newest first. -/
def stableLineW : StableLine :=
  { semTags :=
      [ { name := "4.5.12", ver := { major := 4, minor := 5, patch := 12 } },
        { name := "4.5.11", ver := { major := 4, minor := 5, patch := 11 } },
        { name := "4.5.10", ver := { major := 4, minor := 5, patch := 10 } },
        { name := "4.5.9", ver := { major := 4, minor := 5, patch := 9 } } ],
    targetRepo := "repo" }

/-- Resolver environment for the C5 witness. -/
def envW : UpgradeEnv :=
  { configAs := "Stable", configName := "4-stable",
    currentAcceptedTags := [], targetRepo := "repo",
    stable := .ok [stableLineW] }

def srcW1 : UpgradeSourceE := { tag := "4.5.12", pullSpec := "repo:4.5.12" }

def srcW2 : UpgradeSourceE := { tag := "4.5.11", pullSpec := "repo:4.5.11" }

def srcW3 : UpgradeSourceE := { tag := "4.5.10", pullSpec := "repo:4.5.10" }

/-- The three sources the RallyPoint walk yields in the C5 witness. -/
def srcsW : List UpgradeSourceE := [srcW1, srcW2, srcW3]

/-- The candidate test being fanned out in the C5 witness. -/
def candW : ReleaseCandidateTestC :=
  { upgrade := true, prowJobName := some "j",
    retryStrategy := strategyFirstSuccess, upgradeFrom := upgradeFromRallyPoint }

/-- Witness for C5: spec scenario 4 — current tag 4.5.3, stable accepted
tags 4.5.12, 4.5.11, 4.5.10, 4.5.9; the resolver walks to the rally
point 4.5.10 and the expansion creates one `slot-<fromTag>` slot per
source. -/
theorem C5_witness :
    (stableLineW.semTags
        = stableLineW.semTags.filter
            (matchesMajorMinor { major := 4, minor := 5, patch := 3 }) ∧
      getUpgradeSource parseW envW "4.5.3" "slot" upgradeFromRallyPoint
        = .ok ((specRallyWalk stableLineW.semTags).map
            (fun t => { tag := t.name,
                        pullSpec := stableLineW.targetRepo ++ ":" ++ t.name }))) ∧
    (expandCandidateTests (fun _ _ => Except.ok srcsW)
        [("slot", candW)] [] = .ok (expandFold "slot" candW true [] srcsW) ∧
      ∀ src ∈ srcsW,
        ("slot" ++ "-" ++ src.tag)
          ∈ (expandFold "slot" candW true [] srcsW).map Prod.fst) := by
  constructor
  · exact C5_theorem.1 parseW envW "4.5.3" "slot"
      { major := 4, minor := 5, patch := 3 } [stableLineW] stableLineW
      stableLineW.semTags (by decide) rfl (by decide) (by decide)
  · exact C5_theorem.2 (fun _ _ => Except.ok srcsW) "slot" candW
      srcW1 [srcW2, srcW3] rfl rfl rfl rfl (by decide)

/-! ## Completeness evaluator

Source: `cmd/release-controller/http_candidate.go`,
`VerificationStatusList.Incomplete` (lines 669-722), over
`map[string]*CandidateTestStatus`.  `stringSliceContains` (not among the
sources, a plain slice-membership helper) is embedded as the
corresponding disjunction.  Go byte slicing of the `slot-` prefix is
embedded as character-level `String.drop`; the names involved are
ASCII. -/

/-- Go `VerifyJobStatus` -/
structure VerifyJobStatus where
  state : String
  url : String := ""
deriving DecidableEq, Repr

/-- Go `CandidateTestStatus` -/
structure CandidateTestStatus where
  status : List VerifyJobStatus := []
  transitionTime : Option Int := none
deriving DecidableEq, Repr

/-- Go `VerificationStatusList` of the http_candidate.go commit. -/
abbrev VerificationStatusListH := List (String × CandidateTestStatus)

/-- The `completed` counter of the inner `for _, s := range result.Status`
loop: non-terminal states are skipped, a Succeeded attempt under
`FirstSuccess` forces `completed = maxRetries + 1` and stops, terminal
attempts count one each. -/
def countCompleted (maxRetries : Int) (retryStrategy : String) :
    List VerifyJobStatus → Int → Int
  | [], completed => completed
  | s :: rest, completed =>
      if ¬ (s.state = stateSucceeded ∨ s.state = stateFailed) then
        countCompleted maxRetries retryStrategy rest completed
      else if s.state = stateSucceeded ∧ retryStrategy = strategyFirstSuccess then
        maxRetries + 1
      else countCompleted maxRetries retryStrategy rest (completed + 1)

/-- The `for _, result := range testResults` loop: the slot is appended
to the incomplete names (and the loop breaks) at the first result with
fewer than `maxRetries + 1` completed attempts. -/
def incompleteScan (names : List String) (name : String) (maxRetries : Int)
    (retryStrategy : String) : List CandidateTestStatus → List String
  | [] => names
  | r :: rest =>
      if maxRetries + 1 ≤ countCompleted maxRetries retryStrategy r.status 0 then
        incompleteScan names name maxRetries retryStrategy rest
      else names ++ [name]

/-- Go `VerificationStatusList.Incomplete`: for every enabled required test,
a missing entry under the base name is immediately recorded as
incomplete (`continue`); only then would the RallyPoint prefix
aggregation be consulted — its `else if` branch is consequently
unreachable, but it is embedded faithfully below. -/
def VerificationStatusListH.Incomplete
    (parseTolerant : String → Option Version)
    (m : VerificationStatusListH) :
    List (String × ReleaseCandidateTestC) → List String → List String
  | [], names => names
  | (name, definition) :: rest, names =>
      VerificationStatusListH.Incomplete parseTolerant m rest
        (if definition.disabled then names
         else if (lookupA m name).isNone then names ++ [name]
         else
           let testResults : List CandidateTestStatus :=
             match lookupA m name with
             | some test => [test]
             | none =>
                 if definition.upgrade = true ∧
                     definition.upgradeFrom = upgradeFromRallyPoint then
                   (m.filter (fun p =>
                     p.1.startsWith (name ++ "-") &&
                       (parseTolerant (p.1.drop (name.length + 1))).isSome)).map
                     Prod.snd
                 else []
           let retryStrategy := if definition.retryStrategy.length = 0
             then strategyFirstSuccess else definition.retryStrategy
           incompleteScan names name definition.maxRetries retryStrategy
             testResults)

theorem incompleteScan_names_mono (name : String) (maxRetries : Int)
    (retryStrategy : String) :
    ∀ (results : List CandidateTestStatus) (names : List String) (k : String),
      k ∈ names →
      k ∈ incompleteScan names name maxRetries retryStrategy results := by
  intro results
  induction results with
  | nil => intro names k h; exact h
  | cons r rest ih =>
      intro names k h
      simp only [incompleteScan]
      split
      · exact ih names k h
      · exact List.mem_append_left _ h

theorem incomplete_names_mono (parseTolerant : String → Option Version)
    (m : VerificationStatusListH) :
    ∀ (required : List (String × ReleaseCandidateTestC))
      (names : List String) (k : String), k ∈ names →
      k ∈ VerificationStatusListH.Incomplete parseTolerant m required names := by
  intro required
  induction required with
  | nil => intro names k h; exact h
  | cons p rest ih =>
      obtain ⟨name, definition⟩ := p
      intro names k h
      simp only [VerificationStatusListH.Incomplete]
      apply ih
      split
      · exact h
      · split
        · exact List.mem_append_left _ h
        · exact incompleteScan_names_mono name definition.maxRetries _ _ names k h

/-- Whenever the base slot name has no entry in the status list, the
enabled slot is reported incomplete — regardless of any `slot-<semver>`
entries present.  This is the general form of the C6 divergence. -/
theorem incomplete_requires_base_entry (parseTolerant : String → Option Version)
    (m : VerificationStatusListH) :
    ∀ (required : List (String × ReleaseCandidateTestC))
      (names : List String) (name : String) (defn : ReleaseCandidateTestC),
      (name, defn) ∈ required → defn.disabled = false → lookupA m name = none →
      name ∈ VerificationStatusListH.Incomplete parseTolerant m required names := by
  intro required
  induction required with
  | nil =>
      intro names name defn hmem
      cases hmem
  | cons p rest ih =>
      obtain ⟨n2, d2⟩ := p
      intro names name defn hmem hdis hnone
      rcases List.mem_cons.mp hmem with hhead | htail
      · obtain ⟨hn, hd⟩ := Prod.mk.injEq .. ▸ hhead
        subst hn
        subst hd
        simp only [VerificationStatusListH.Incomplete]
        apply incomplete_names_mono
        rw [if_neg (by simp [hdis]), if_pos (by simp [hnone])]
        exact List.mem_append_right _ (List.mem_singleton_self _)
      · simp only [VerificationStatusListH.Incomplete]
        exact ih _ name defn htail hdis hnone

/-- The RallyPoint candidate test used in the C6 failing input. -/
def rallyDefnW : ReleaseCandidateTestC :=
  { upgrade := true, upgradeFrom := upgradeFromRallyPoint,
    prowJobName := some "j", maxRetries := 0,
    retryStrategy := strategyFirstSuccess }

/-- Claim C6 (code bug, concrete run): a RallyPoint candidate slot whose
expanded slots `t-4.5.12`, `t-4.5.11` are all Succeeded is still reported
incomplete, because the evaluator requires an entry under the base name
`t` and its prefix-aggregation branch is unreachable dead code. -/
theorem C6_theorem :
    VerificationStatusListH.Incomplete parseW
      [("t-4.5.12", { status := [{ state := stateSucceeded }] }),
       ("t-4.5.11", { status := [{ state := stateSucceeded }] })]
      [("t", rallyDefnW)] [] = ["t"] := by
  decide

/-! ## Dynamic upgrade-test synthesis

Source: `upgradeJobs` (part_001, lines 158-231; the sync_verify.go copy
differs only in calling `stableReleases(true)` and stamping
`RetryStrategyTillRetryCount` instead of `RetryStrategyFirstSuccess` on
the synthesized test, so the stamped strategy is a parameter here).
`semverParseTolerant` and `findImageStreamByAnnotations` are not among
the sources and are abstract parameters; `c.graph.UpgradesTo` is given as
the list of `From` tags of the found upgrades. -/

/-- A release tag: name plus annotation map. -/
structure TagRef where
  name : String
  annotations : List (String × String)
deriving DecidableEq, Repr

/-- Go `release.openshift.io/keep` -/
def releaseAnnotationKeep : String := "release.openshift.io/keep"

/-- Go `release.openshift.io/phase` -/
def releaseAnnotationPhase : String := "release.openshift.io/phase"

/-- Go `release.openshift.io/source` -/
def releaseAnnotationSource : String := "release.openshift.io/source"

/-- Go `releasePhaseAccepted` -/
def releasePhaseAccepted : String := "Accepted"

/-- The image stream `findImageStreamByAnnotations` returns (only its
`Status.PublicDockerImageRepository` is read). -/
structure ImageStreamInfo where
  publicRepo : String
deriving DecidableEq, Repr

/-- One stable release as scanned by `upgradeJobs`: the source image
stream's namespace, name and spec tags. -/
structure StableReleaseRaw where
  sourceNamespace : String
  sourceName : String
  tags : List TagRef
deriving DecidableEq, Repr

/-- Go `upgradeJobs(release, releaseTag, retryCount)`.  Returns the
synthesized test map and whether the `stableReleases()` error was
returned with it. -/
def upgradeJobs (parseTolerant : String → Option Version)
    (findStream : String → Option ImageStreamInfo)
    (graphUpgradesTo : List String) (synthStrategy : String)
    (stable : Except Unit (List StableReleaseRaw))
    (releaseTag : Option TagRef) (retryCount : Int) :
    List (String × ReleaseAdditionalTest) × Bool :=
  match releaseTag with
  | none => ([], false)
  | some tag =>
      if tag.annotations.length = 0 then ([], false)
      else if ((lookupA tag.annotations releaseAnnotationKeep).getD
          "").length = 0 then ([], false)
      else match parseTolerant tag.name with
        | none => ([], false)
        | some releaseVersion =>
            match stable with
            | .error _ => ([], true)
            | .ok stables =>
                (stables.foldl (fun acc r =>
                  let releaseSource := r.sourceNamespace ++ "/" ++ r.sourceName
                  r.tags.foldl (fun acc stableTag =>
                    if ¬ ((lookupA stableTag.annotations
                            releaseAnnotationPhase).getD ""
                          = releasePhaseAccepted) ∨
                       ¬ ((lookupA stableTag.annotations
                            releaseAnnotationSource).getD ""
                          = releaseSource) then acc
                    else if stableTag.name.length = 0 ∨
                        retryCount ≤ (graphUpgradesTo.count stableTag.name : Int)
                      then acc
                    else match parseTolerant stableTag.name with
                      | none => acc
                      | some stableVersion =>
                          if ¬ (stableVersion.pre = []) ∨
                              ¬ (stableVersion.build = []) then acc
                          else if ¬ (stableVersion.major = releaseVersion.major) ∨
                              ¬ (stableVersion.minor = releaseVersion.minor)
                            then acc
                          else match findStream stableTag.name with
                            | none => acc
                            | some stream =>
                                if stream.publicRepo.length = 0 then acc
                                else
                                  let prowJobName := "e2e-aws-upgrade-" ++
                                    toString stableVersion.major ++ "." ++
                                    toString stableVersion.minor
                                  let testName := prowJobName ++ "." ++
                                    toString stableVersion.patch
                                  upsertA acc testName
                                    { disabled := false, optional := true,
                                      upgrade := true,
                                      prowJobName := some prowJobName,
                                      upgradeTag := stableTag.name,
                                      upgradeRef := stream.publicRepo,
                                      retryStrategy := synthStrategy,
                                      retryCount := retryCount }) acc) [],
                  false)

/-- Claim C10: `upgradeJobs` returns an empty synthesized map with no
error when the release tag is nil, has no annotations, lacks the keep
annotation, or has a name that the tolerant semver parse rejects. -/
theorem C10_theorem (parseTolerant : String → Option Version)
    (findStream : String → Option ImageStreamInfo)
    (graphUpgradesTo : List String) (synthStrategy : String)
    (stable : Except Unit (List StableReleaseRaw)) (retryCount : Int) :
    upgradeJobs parseTolerant findStream graphUpgradesTo synthStrategy stable
        none retryCount = ([], false) ∧
    (∀ tag : TagRef, tag.annotations = [] →
      upgradeJobs parseTolerant findStream graphUpgradesTo synthStrategy stable
        (some tag) retryCount = ([], false)) ∧
    (∀ tag : TagRef,
      (lookupA tag.annotations releaseAnnotationKeep).getD "" = "" →
      upgradeJobs parseTolerant findStream graphUpgradesTo synthStrategy stable
        (some tag) retryCount = ([], false)) ∧
    (∀ tag : TagRef, parseTolerant tag.name = none →
      upgradeJobs parseTolerant findStream graphUpgradesTo synthStrategy stable
        (some tag) retryCount = ([], false)) := by
  refine ⟨rfl, ?_, ?_, ?_⟩
  · intro tag h
    simp [upgradeJobs, h]
  · intro tag h
    by_cases h0 : tag.annotations.length = 0
    · simp [upgradeJobs, h0]
    · simp [upgradeJobs, h0, h]
  · intro tag h
    by_cases h0 : tag.annotations.length = 0
    · simp [upgradeJobs, h0]
    · by_cases h1 : ((lookupA tag.annotations releaseAnnotationKeep).getD
          "").length = 0
      · simp [upgradeJobs, h0, h1]
      · simp [upgradeJobs, h0, h1, h]

/-- Witness for C10 at concrete tags. -/
theorem C10_witness :
    (upgradeJobs (fun _ => none) (fun _ => none) [] strategyFirstSuccess
        (.ok []) (some { name := "x", annotations := [] }) 2 = ([], false)) ∧
    (upgradeJobs (fun _ => none) (fun _ => none) [] strategyFirstSuccess
        (.ok []) (some ⟨"x", [("other", "v")]⟩) 2 = ([], false)) ∧
    (upgradeJobs (fun _ => none) (fun _ => none) [] strategyFirstSuccess
        (.ok []) (some ⟨"not-semver", [(releaseAnnotationKeep, "y")]⟩) 2
      = ([], false)) := by
  refine ⟨?_, ?_, ?_⟩
  · exact (C10_theorem (fun _ => none) (fun _ => none) [] strategyFirstSuccess
      (.ok []) 2).2.1 { name := "x", annotations := [] } rfl
  · exact (C10_theorem (fun _ => none) (fun _ => none) [] strategyFirstSuccess
      (.ok []) 2).2.2.1 ⟨"x", [("other", "v")]⟩ (by decide)
  · exact (C10_theorem (fun _ => none) (fun _ => none) [] strategyFirstSuccess
      (.ok []) 2).2.2.2 ⟨"not-semver", [(releaseAnnotationKeep, "y")]⟩ rfl

/-! ## Gating verification orchestrator

Source: `ensureVerificationJobs` (part_001, lines 246-351).  The facade
here additionally receives the upgrade source
(`previousTag, previousReleasePullSpec`) the orchestrator passes to
`ensureProwJobForReleaseTag`. -/

/-- Go `ReleaseVerification` as read by the gating orchestrator. -/
structure ReleaseVerification where
  disabled : Bool := false
  optional : Bool := false
  upgrade : Bool := false
  upgradeFrom : String := ""
  prowJobName : Option String := none
  maxRetries : Int := 0
deriving DecidableEq, Repr

/-- Outcome of one `ensureVerificationJobs` reconcile: the final status
map plus the `retryQueueDelay` handed to `queue.AddAfter` (0 = no
re-enqueue); `abortedEmptySource` is the `return nil, err` with a nil
error taken when the upgrade resolver returns an empty source list;
`error` covers the resolver's error return. -/
inductive VerifyOutcome
  | ok (status : List (String × VerificationStatus)) (delay : Int)
  | abortedEmptySource
  | error
deriving DecidableEq, Repr

/-- The per-slot fold of `ensureVerificationJobs`. -/
def ensureVerificationJobsCore (parse : String → Option Version)
    (facade : String → String → String → VerificationStatus)
    (env : UpgradeEnv) (now : Int) (releaseTagName : String) :
    List (String × ReleaseVerification) →
    List (String × VerificationStatus) → Int → VerifyOutcome
  | [], vs, delay => .ok vs delay
  | (name, vt) :: rest, vs, delay =>
      if vt.disabled then
        ensureVerificationJobsCore parse facade env now releaseTagName rest vs
          delay
      else match vt.prowJobName with
        | none =>
            ensureVerificationJobsCore parse facade env now releaseTagName rest
              vs delay
        | some _ =>
            let gate : Option Int × Int :=
              match lookupA vs name with
              | none => (some 0, delay)
              | some st =>
                  if st.state = stateSucceeded then (none, delay)
                  else if st.state = stateFailed then
                    let jr := st.retries + 1
                    if vt.maxRetries < jr then (none, delay)
                    else match st.transitionTime with
                      | some tt =>
                          let b := calculateBackoff (jr - 1) (some tt) now
                          if 0 < b then
                            (none, if delay = 0 ∨ b < delay then b else delay)
                          else (some jr, delay)
                      | none => (some jr, delay)
                  else (some st.retries, delay)
            match gate with
            | (none, delay2) =>
                ensureVerificationJobsCore parse facade env now releaseTagName
                  rest vs delay2
            | (some jr, delay2) =>
                let src? : Except VerifyOutcome (String × String) :=
                  if vt.upgrade then
                    match getUpgradeSource parse env releaseTagName name
                        vt.upgradeFrom with
                    | .error _ => .error VerifyOutcome.error
                    | .ok [] => .error VerifyOutcome.abortedEmptySource
                    | .ok (s :: _) => .ok (s.tag, s.pullSpec)
                  else .ok ("", "")
                match src? with
                | .error o => o
                | .ok (prevTag, prevSpec) =>
                    let jobName := if 0 < jr then name ++ "-" ++ toString jr
                      else name
                    let st := { facade jobName prevTag prevSpec with
                      retries := jr }
                    let vs2 := upsertA vs name st
                    if vt.maxRetries ≤ jr then
                      ensureVerificationJobsCore parse facade env now
                        releaseTagName rest vs2 delay2
                    else if st.state = stateFailed then
                      let b := calculateBackoff jr st.transitionTime now
                      ensureVerificationJobsCore parse facade env now
                        releaseTagName rest vs2
                        (if delay2 = 0 ∨ b < delay2 then b else delay2)
                    else
                      ensureVerificationJobsCore parse facade env now
                        releaseTagName rest vs2 delay2

/-- Go `ensureVerificationJobs` with the annotation-decoding prologue
(part_001, lines 250-255): a non-empty annotation is passed to
`json.Unmarshal` into a freshly made map and the orchestrator proceeds
with whatever the call left in the map, logging (not propagating) any
error.  `unmarshal` models `json.Unmarshal`: the map contents after the
call paired with whether an error was returned (the error is only
logged, so only `.1` feeds the orchestrator).  An input that is not
valid JSON leaves the map untouched — the whole input is syntax-checked
before any filling — but valid JSON of the wrong shape may fill the map
partially before the type error is returned, so a failed decode does not
always leave the map empty. -/
def ensureVerificationJobs
    (unmarshal : String → List (String × VerificationStatus) × Bool)
    (parse : String → Option Version)
    (facade : String → String → String → VerificationStatus)
    (env : UpgradeEnv) (now : Int) (releaseTagName : String) (data : String)
    (slots : List (String × ReleaseVerification)) : VerifyOutcome :=
  let verifyStatus := if 0 < data.length then (unmarshal data).1 else []
  ensureVerificationJobsCore parse facade env now releaseTagName slots
    verifyStatus 0

/-! ## The validate-variant additional-tests orchestrator

Source: `ensureAdditionalTests` (sync_verify.go, lines 66-149;
`retryCount := 1`, annotation `releaseAnnotationValidate`, only
`RetryStrategyTillRetryCount` recognized).  The `upgradeJobs` result and
its error are parameters here (`upgradeTests`, `upgradeErr`); on
`upgradeErr` the function returns early with an error, which is
`none`. -/

/-- The pending-attempt scan (sync_verify.go, lines 102-120): `jobNo`
starts at the list length; the `break` after `jobNo = i` exits only the
switch, so the scan runs to the end and `jobNo` ends at the last Pending
index, if any. -/
def scanValidate : List VerificationStatus → Nat → Nat → Nat
  | [], _, jobNo => jobNo
  | s :: rest, i, jobNo =>
      if s.state = stateFailed ∨ s.state = stateSucceeded then
        scanValidate rest (i + 1) jobNo
      else if s.state = statePending then
        scanValidate rest (i + 1) i
      else
        scanValidate rest (i + 1) jobNo

/-- The per-slot fold of the validate-variant `ensureAdditionalTests`:
one job ensure per slot at most, at index `jobNo`, recorded with the
`len <= jobNo` append-or-set write.  The ensured `(slot, attempt)` pairs
are threaded as an observer. -/
def ensureAdditionalTestsSVCore (facade : String → VerificationStatus) :
    List (String × ReleaseAdditionalTest) →
    List (String × List VerificationStatus) → List (String × Nat) →
    List (String × List VerificationStatus) × List (String × Nat)
  | [], m, ens => (m, ens)
  | (name, t) :: rest, m, ens =>
      if t.disabled then ensureAdditionalTestsSVCore facade rest m ens
      else match t.prowJobName with
        | none => ensureAdditionalTestsSVCore facade rest m ens
        | some _ =>
            if t.retryStrategy = strategyTillRetryCount then
              let l := (lookupA m name).getD []
              let jobNo : Nat := match lookupA m name with
                | none => 0
                | some l0 => scanValidate l0 0 l0.length
              if (jobNo : Int) < t.retryCount then
                let st := facade (name ++ "-" ++ toString jobNo)
                let l2 := if l.length ≤ jobNo then l ++ [st] else l.set jobNo st
                ensureAdditionalTestsSVCore facade rest (upsertA m name l2)
                  (ens ++ [(name, jobNo)])
              else ensureAdditionalTestsSVCore facade rest m ens
            else ensureAdditionalTestsSVCore facade rest m ens

/-- Go `ensureAdditionalTests` (sync_verify.go) with the decoding prologue
(lines 66-75) and the `upgradeJobs` merge; `none` is the early error
return taken when `upgradeJobs` errored.  As in `ensureVerificationJobs`,
`unmarshal` models `json.Unmarshal`: the map contents it left behind
paired with whether it errored (the error is only logged). -/
def ensureAdditionalTestsSV
    (unmarshal : String → List (String × List VerificationStatus) × Bool)
    (facade : String → VerificationStatus)
    (upgradeTests : List (String × ReleaseAdditionalTest))
    (upgradeErr : Bool)
    (configTests : List (String × ReleaseAdditionalTest)) (data : String) :
    Option (List (String × List VerificationStatus) × List (String × Nat)) :=
  let verifyStatus := if 0 < data.length then (unmarshal data).1 else []
  if upgradeErr then none
  else
    let tests := configTests.foldl (fun acc p => upsertA acc p.1 p.2)
      upgradeTests
    some (ensureAdditionalTestsSVCore facade tests verifyStatus [])

theorem ensureAdditionalTestsSVCore_fresh_attempt_zero
    (facade : String → VerificationStatus) :
    ∀ (tests : List (String × ReleaseAdditionalTest))
      (m : List (String × List VerificationStatus)) (ens : List (String × Nat)),
      (∀ k ∈ tests.map Prod.fst, lookupA m k = none) →
      (tests.map Prod.fst).Nodup →
      (∀ p ∈ ens, p.2 = 0) →
      ∀ p ∈ (ensureAdditionalTestsSVCore facade tests m ens).2, p.2 = 0 := by
  intro tests
  induction tests with
  | nil => intro m ens _ _ hens p hp; exact hens p hp
  | cons q rest ih =>
      obtain ⟨name, t⟩ := q
      intro m ens hnone hnd hens p hp
      have hnd2 : name ∉ rest.map Prod.fst ∧ (rest.map Prod.fst).Nodup := by
        simpa [List.nodup_cons] using hnd
      have hrest : ∀ k ∈ rest.map Prod.fst, lookupA m k = none := fun k hk =>
        hnone k (List.mem_cons_of_mem _ hk)
      have hm : lookupA m name = none :=
        hnone name (List.mem_cons_self _ _)
      simp only [ensureAdditionalTestsSVCore] at hp
      split at hp
      case isTrue => exact ih m ens hrest hnd2.2 hens p hp
      case isFalse =>
        split at hp
        case h_1 => exact ih m ens hrest hnd2.2 hens p hp
        case h_2 =>
          split at hp
          case isTrue =>
            rw [hm] at hp
            split at hp
            case isTrue =>
              refine ih _ _ ?_ hnd2.2 ?_ p hp
              · intro k hk
                rw [lookupA_upsertA_ne _ _ _ _ ?_]
                · exact hrest k hk
                · intro heq
                  exact hnd2.1 (heq ▸ hk)
              · intro q hq
                rcases List.mem_append.mp hq with h1 | h1
                · exact hens q h1
                · rw [List.mem_singleton.mp h1]
            case isFalse => exact ih m ens hrest hnd2.2 hens p hp
          case isFalse => exact ih m ens hrest hnd2.2 hens p hp

/-- The valid-JSON, wrong-shape annotation of the C7 counterexample: the
"a" entry has the status shape, the "b" entry is a bare number. -/
def jsonCX : String := "\x7b\"a\":\x7b\"state\":\"Succeeded\"\x7d,\"b\":17\x7d"

/-- Go `json.Unmarshal` behaviour on `jsonCX`: the input is valid JSON,
so decoding proceeds and fills the "a" entry before failing on "b" with
a type error — a partial fill together with a returned error.  Every
other input here is treated as not valid JSON: the map is left
untouched and an error is returned. -/
def unmarshalCX : String → List (String × VerificationStatus) × Bool :=
  fun s =>
    if s = jsonCX then ([("a", { state := stateSucceeded })], true)
    else ([], true)

/-- Claim C7 (counterexample): the non-empty annotation `jsonCX` fails to
decode into the status shape (`json.Unmarshal` returns a type error),
yet the reconcile does not behave as if the persisted map were empty:
the partially decoded "a" entry is carried over verbatim into the
resulting status map and the enabled slot "a" is skipped as already
Succeeded rather than processed from attempt 0 — unlike the
absent-annotation run, which ensures attempt 0 of "a". -/
theorem C7_counterexample :
    (0 < jsonCX.length ∧ (unmarshalCX jsonCX).2 = true) ∧
    ensureVerificationJobs unmarshalCX (fun _ => none)
        (fun _ _ _ => { state := statePending })
        { configAs := "", configName := "c", currentAcceptedTags := [],
          targetRepo := "r", stable := .ok [] } 0 "4.5.3" jsonCX
        [("a", { prowJobName := some "j" })]
      = .ok [("a", { state := stateSucceeded })] 0 ∧
    ensureVerificationJobs unmarshalCX (fun _ => none)
        (fun _ _ _ => { state := statePending })
        { configAs := "", configName := "c", currentAcceptedTags := [],
          targetRepo := "r", stable := .ok [] } 0 "4.5.3" ""
        [("a", { prowJobName := some "j" })]
      = .ok [("a", { state := statePending })] 0 := by
  refine ⟨⟨?_, rfl⟩, ?_, ?_⟩ <;> decide

/-- Claim C7 (amended): a decode failure never aborts the reconcile —
the error is only logged — and whenever the failed `json.Unmarshal` left
the map empty (as it does for every annotation that is not valid JSON,
the whole input being syntax-checked before any filling) the run is
identical to the absent-annotation run: no entry is carried over, and
with no persisted state every ensured attempt of the additional-tests
orchestrator is attempt 0.  Valid JSON of the wrong shape may decode
partially, and its entries are then treated as persisted state, as the
counterexample shows. -/
theorem C7_theorem
    (unmarshal : String → List (String × VerificationStatus) × Bool)
    (unmarshalL : String → List (String × List VerificationStatus) × Bool)
    (parse : String → Option Version)
    (facadeV : String → String → String → VerificationStatus)
    (facade : String → VerificationStatus) (env : UpgradeEnv) (now : Int)
    (releaseTagName : String) (slots : List (String × ReleaseVerification))
    (upgradeTests configTests : List (String × ReleaseAdditionalTest))
    (upgradeErr : Bool) (s : String)
    (h1 : (unmarshal s).1 = []) (h2 : (unmarshalL s).1 = []) :
    ensureVerificationJobs unmarshal parse facadeV env now releaseTagName s
        slots
      = ensureVerificationJobs unmarshal parse facadeV env now releaseTagName
          "" slots ∧
    ensureAdditionalTestsSV unmarshalL facade upgradeTests upgradeErr
        configTests s
      = ensureAdditionalTestsSV unmarshalL facade upgradeTests upgradeErr
          configTests "" ∧
    (∀ tests : List (String × ReleaseAdditionalTest),
      (tests.map Prod.fst).Nodup →
      ∀ p ∈ (ensureAdditionalTestsSVCore facade tests [] []).2, p.2 = 0) := by
  have hvs : (if 0 < s.length then (unmarshal s).1 else [])
      = ([] : List (String × VerificationStatus)) := by
    by_cases hs : 0 < s.length
    · simp [hs, h1]
    · simp [hs]
  have hvl : (if 0 < s.length then (unmarshalL s).1 else [])
      = ([] : List (String × List VerificationStatus)) := by
    by_cases hs : 0 < s.length
    · simp [hs, h2]
    · simp [hs]
  refine ⟨?_, ?_, ?_⟩
  · simp only [ensureVerificationJobs, hvs]
    simp
  · simp only [ensureAdditionalTestsSV, hvl]
    simp
  · intro tests hnd p hp
    exact ensureAdditionalTestsSVCore_fresh_attempt_zero facade tests [] []
      (by intro k _; rfl) hnd (by intro q hq; cases hq) p hp

/-- Witness for C7: the annotation `"not json"` (not valid JSON, map left
empty) against a one-slot configuration behaves like the absent
annotation. -/
theorem C7_witness :
    ensureVerificationJobs (fun _ => ([], true)) (fun _ => none)
        (fun _ _ _ => { state := statePending })
        { configAs := "", configName := "c", currentAcceptedTags := [],
          targetRepo := "r", stable := .ok [] } 0 "4.5.3" "not json"
        [("unit", { prowJobName := some "j" })]
      = ensureVerificationJobs (fun _ => ([], true)) (fun _ => none)
          (fun _ _ _ => { state := statePending })
          { configAs := "", configName := "c", currentAcceptedTags := [],
            targetRepo := "r", stable := .ok [] } 0 "4.5.3" ""
          [("unit", { prowJobName := some "j" })] :=
  (C7_theorem (fun _ => ([], true)) (fun _ => ([], true)) (fun _ => none)
    (fun _ _ _ => { state := statePending })
    (fun _ => { state := statePending })
    { configAs := "", configName := "c", currentAcceptedTags := [],
      targetRepo := "r", stable := .ok [] } 0 "4.5.3"
    [("unit", { prowJobName := some "j" })] [] [] false "not json"
    rfl rfl).1
